import Mathlib

/-! pangu-grpc: header rule engine, protocol demultiplexer and response interceptor.

A shallow embedding of `header.go`, `server_gateway.go` and
`internal/core/server_grpc.go`.

Go strings are embedded as `String`; the library calls the code makes
(`strings.ToLower`, `strings.Contains`, `strings.Join`, `strconv.Atoi`,
`textproto.CanonicalMIMEHeaderKey`, `metadata.MD.Get/Delete`,
`http.Header.Get/Set/Del`, `http.ResponseWriter.WriteHeader` with its panic on
an invalid code, the first test of `h2c.NewHandler`) are embedded by structural
definitions following the Go libraries, restricted to ASCII case mapping.

Go maps are embedded as association lists, read by `List.lookup`; the order of
the list is the order in which a `range` loop happens to visit the entries, so
a statement for all lists covers every map and every iteration order.

The calls of the logger are not part of the embedding.
-/

namespace PanguGrpc

/-! ## Go library functions used by the code -/

/-- Go `strings.ToLower`, on ASCII letters. -/
def stringsToLower (s : String) : String :=
  String.mk (s.data.map Char.toLower)

/-- Go `strings.HasPrefix` on the characters of the two strings. -/
def startsWithChars : List Char → List Char → Bool
  | _, [] => true
  | [], _ :: _ => false
  | c :: s, d :: p => c == d && startsWithChars s p

/-- Search for `sub` at every position of `s`. -/
def containsChars : List Char → List Char → Bool
  | [], sub => sub.isEmpty
  | c :: s, sub => startsWithChars (c :: s) sub || containsChars s sub

/-- Go `strings.Contains`. -/
def stringsContains (s sub : String) : Bool :=
  containsChars s.data sub.data

/-- Go `strings.HasPrefix`. -/
def stringsHasPrefix (s p : String) : Bool :=
  startsWithChars s.data p.data

/-- Go `strings.Join`. -/
def stringsJoin : List String → String → String
  | [], _ => ""
  | [a], _ => a
  | a :: b :: rest, sep => a ++ sep ++ stringsJoin (b :: rest) sep

/-! ## Header rule engine (`header.go`) -/

/-- The pattern types `remove` and `match` of the package: their declaration
is not among the sources, so a pattern is taken as any value with the one
operation `test(key) -> (new, match)` that `header.go` calls. -/
structure Pattern where
  test : String → String × Bool

/-- Modelled from the spec: the `prefix` pattern of the configuration schema,
which matches the keys starting with `p`. A key it does not match is left
unchanged, as the spec says of every pattern, and a key it matches is returned
as it is, as in scenario S2 of the spec. -/
def prefixPattern (p : String) : Pattern :=
  ⟨fun key => (key, stringsHasPrefix key p)⟩

/-- The configuration struct `header` of `header.go`. -/
structure header where
  Removes : List Pattern
  Ins : List Pattern
  Outs : List Pattern

/-- The `for ... range` loop shared by `testRemove` and `_testMatch`: the
named results `(new, match)` are assigned at every iteration and the loop
breaks at the first match. `acc` is the current value of the named results. -/
def testLoop (key : String) : List Pattern → String × Bool → String × Bool
  | [], acc => acc
  | t :: ts, _ =>
    let r := t.test key
    if r.2 then r else testLoop key ts r

/-- `header.testRemove`: the named results start at their zero values. -/
def header.testRemove (h : header) (key : String) : String × Bool :=
  testLoop key h.Removes ("", false)

/-- `header._testMatch`. -/
def header._testMatch (_h : header) (targets : List Pattern) (key : String) : String × Bool :=
  testLoop key targets ("", false)

/-- `header.testIns`. -/
def header.testIns (h : header) (key : String) : String × Bool :=
  h._testMatch h.Ins key

/-- `header.testOuts`. -/
def header.testOuts (h : header) (key : String) : String × Bool :=
  h._testMatch h.Outs key

/-! ## `net/http` and `net/textproto` -/

/-- The bytes `textproto` accepts in a header field name (RFC 7230 token
characters): letters, digits and the punctuation of the token set. -/
def validHeaderFieldByte (c : Char) : Bool :=
  c.isAlphanum || [33, 35, 36, 37, 38, 39, 42, 43, 45, 46, 94, 95, 96, 124, 126].contains c.toNat

/-- The rewriting pass of `canonicalMIMEHeaderKey`: upper case for the first
letter and for every letter after a dash, lower case elsewhere. `upper` is the
flag the Go loop carries. -/
def canonicalizeChars : Bool → List Char → List Char
  | _, [] => []
  | upper, c :: cs =>
    let d := if upper then c.toUpper else c.toLower
    d :: canonicalizeChars (d == '-') cs

/-- Go `textproto.CanonicalMIMEHeaderKey`: a key holding a byte that is not a
token character is returned unchanged, any other key is canonicalised. -/
def canonicalMIMEHeaderKey (s : String) : String :=
  if s.data.all validHeaderFieldByte then String.mk (canonicalizeChars true s.data) else s

/-- Go `http.Header`, a `map[string][]string`. -/
abbrev HttpHeader := List (String × List String)

/-- Go `http.Header.Get`: the first value under the canonical key, or `""`. -/
def HttpHeader.Get (h : HttpHeader) (key : String) : String :=
  match h.lookup (canonicalMIMEHeaderKey key) with
  | some (v :: _) => v
  | _ => ""

/-- Go `http.Header.Del`. -/
def HttpHeader.Del (h : HttpHeader) (key : String) : HttpHeader :=
  h.filter (fun e => e.1 != canonicalMIMEHeaderKey key)

/-- Go `http.Header.Set`: the canonical key is bound to the single value. -/
def HttpHeader.Set (h : HttpHeader) (key value : String) : HttpHeader :=
  (canonicalMIMEHeaderKey key, [value]) :: h.filter (fun e => e.1 != canonicalMIMEHeaderKey key)

/-- An operation applied to an `http.ResponseWriter`. -/
inductive WriterOp where
  | headerSet (key value : String)
  | headerDel (key : String)
  | writeHeader (code : Int)
  deriving DecidableEq

/-- Whether the operation is a `Header().Set`. -/
def WriterOp.isSet : WriterOp → Bool
  | .headerSet _ _ => true
  | _ => false

/-- Whether the operation is a `WriteHeader`. -/
def WriterOp.isWriteHeader : WriterOp → Bool
  | .writeHeader _ => true
  | _ => false

/-- An `http.ResponseWriter` as the code uses it: the header map it exposes
and the sequence of operations applied to it so far, oldest first. -/
structure ResponseWriter where
  hdr : HttpHeader
  log : List WriterOp

/-- The call `writer.Header().Set(key, value)`. -/
def ResponseWriter.headerSet (w : ResponseWriter) (key value : String) : ResponseWriter :=
  { hdr := w.hdr.Set key value, log := w.log ++ [.headerSet key value] }

/-- The call `writer.Header().Del(key)`. -/
def ResponseWriter.headerDel (w : ResponseWriter) (key : String) : ResponseWriter :=
  { hdr := w.hdr.Del key, log := w.log ++ [.headerDel key] }

/-- Go `net/http` `checkWriteHeaderCode`, the first statement of `WriteHeader`
in the HTTP/1 and HTTP/2 response writers: a code below 100 or above 999
panics. The result is whether the code is accepted. -/
def checkWriteHeaderCode (code : Int) : Bool :=
  !(decide (code < 100) || decide (code > 999))

/-- The call `writer.WriteHeader(code)`: the writer after the call, and whether
the call returned (`false` when it panicked on the code). -/
def ResponseWriter.WriteHeader (w : ResponseWriter) (code : Int) : ResponseWriter × Bool :=
  ({ hdr := w.hdr, log := w.log ++ [.writeHeader code] }, checkWriteHeaderCode code)

/-! ## `google.golang.org/grpc/metadata` -/

/-- Go `metadata.MD`, a `map[string][]string`. -/
abbrev MD := List (String × List String)

/-- Go `metadata.MD.Get`: the key is lower-cased before the lookup. -/
def MD.Get (md : MD) (k : String) : List String :=
  (md.lookup (stringsToLower k)).getD []

/-- Go `metadata.MD.Delete`: the key is lower-cased before the deletion. -/
def MD.Delete (md : MD) (k : String) : MD :=
  md.filter (fun e => e.1 != stringsToLower k)

/-- Whether the map has an entry under exactly this key. -/
def MD.has (md : MD) (k : String) : Bool :=
  (md.lookup k).isSome

/-- The keys of a bag built by the `metadata` package are lower case. -/
def MD.lowerKeys (md : MD) : Prop :=
  ∀ e ∈ md, stringsToLower e.1 = e.1

instance (md : MD) : Decidable md.lowerKeys := by
  unfold MD.lowerKeys; infer_instance

/-! ## `strconv.Atoi` -/

/-- The error of `strconv.Atoi`. -/
inductive NumError where
  | errSyntax
  | errRange
  deriving DecidableEq

/-- The digit loop of `strconv.Atoi`: `n = n*10 + (ch - '0')`, failing on a
byte that is not a decimal digit. -/
def atoiDigits : List Char → Nat → Option Nat
  | [], n => some n
  | c :: cs, n => if c.isDigit then atoiDigits cs (n * 10 + (c.toNat - 48)) else none

/-- The magnitude of a digit string, which has to be non-empty. -/
def atoiMagnitude (cs : List Char) : Option Nat :=
  if cs.isEmpty then none else atoiDigits cs 0

/-- Go `strconv.Atoi` for a 64-bit `int`: an optional sign, then one or more
decimal digits; a value outside `[-2^63, 2^63 - 1]` is a range error. -/
def strconvAtoi (s : String) : Except NumError Int :=
  match s.data with
  | '-' :: cs =>
    match atoiMagnitude cs with
    | none => .error .errSyntax
    | some n => if n ≤ 2 ^ 63 then .ok (-(n : Int)) else .error .errRange
  | '+' :: cs =>
    match atoiMagnitude cs with
    | none => .error .errSyntax
    | some n => if n < 2 ^ 63 then .ok (n : Int) else .error .errRange
  | cs =>
    match atoiMagnitude cs with
    | none => .error .errSyntax
    | some n => if n < 2 ^ 63 then .ok (n : Int) else .error .errRange

/-! ## The gateway server (`server_gateway.go`) -/

/-- Modelled from the spec: the package constant `space`, whose declaration is
not among the sources; values are joined by a single ASCII space. -/
def space : String := " "

/-- Modelled from the spec: `fmt.Sprintf(grpcMetadataFormatter, key)`, where the
package constant `grpcMetadataFormatter`, whose declaration is not among the
sources, has the format `Grpc-Metadata-<Key>`. -/
def grpcMetadataHeader (key : String) : String :=
  "Grpc-Metadata-" ++ key

/-- The gateway configuration, of which the code reads the `Header` field. -/
structure gatewayConfig where
  Header : header

/-- The server configuration, of which the code reads the `Gateway` field. -/
structure serverConfig where
  Gateway : gatewayConfig

/-- What the demultiplexer and the `h2c` wrapper read of an `http.Request`;
`Path` is `r.URL.Path`. -/
structure Request where
  Method : String
  Path : String
  Proto : String
  ProtoMajor : Int
  Header : HttpHeader

/-- A call of `ServeHTTP` made by the demultiplexer. -/
inductive ServeCall where
  | grpc
  | gateway
  deriving DecidableEq

/-- The `Server` of `server_gateway.go`. The package constants
`httpStatusHeader` and `grpcStatusHeader` are not among the sources and are
taken as parameters, and so are three library functions: the transcoder's
`runtime.DefaultHeaderMatcher`, the test `isH2CUpgrade` of the `h2c` package,
and `serveUpgraded`, the `ServeHTTP` calls made with a request that asks for
the upgrade to h2c, once `h2c` has handed its connection to the HTTP/2 server
or has refused the upgrade. -/
structure Server where
  config : serverConfig
  httpStatusHeader : String
  grpcStatusHeader : String
  DefaultHeaderMatcher : String → String × Bool
  isH2CUpgrade : HttpHeader → Bool
  serveUpgraded : Request → List ServeCall

/-- The function literal of `Server.handler`, which `h2c.NewHandler` wraps:
the result is the sequence of `ServeHTTP` calls it makes with the request
`r`. -/
def Server.handlerFunc (_s : Server) (r : Request) : List ServeCall :=
  if r.ProtoMajor = 2 && stringsContains (r.Header.Get "Content-Type") "application/grpc" then
    [ServeCall.grpc]
  else
    [ServeCall.gateway]

/-- The first test of `h2cHandler.ServeHTTP`: the request is the client preface
`PRI * HTTP/2.0` of h2c with prior knowledge. -/
def h2cPriorKnowledge (r : Request) : Bool :=
  r.Method == "PRI" && r.Header.isEmpty && r.Path == "*" && r.Proto == "HTTP/2.0"

/-- `Server.handler`: the handler `h2c.NewHandler` builds around the function
literal. The result is the sequence of `ServeHTTP` calls made with the request
`r`. On the preface of h2c with prior knowledge the wrapper hands the
connection to the HTTP/2 server and returns: the function literal is called
with the requests read from that connection, never with the preface. On an
upgrade request the calls are those of `serveUpgraded`. Every other request
is passed to the function literal. -/
def Server.handler (s : Server) (r : Request) : List ServeCall :=
  if h2cPriorKnowledge r then []
  else if s.isH2CUpgrade r.Header then s.serveUpgraded r
  else s.handlerFunc r

/-- What a response interceptor works on: the `HeaderMD` bag of the server
metadata attached to `ctx` (`none` when `ServerMetadataFromContext` reports
no metadata) and the response writer. Both are mutated in place by the Go
code, so every function returns the new exchange. -/
structure Exchange where
  md : Option MD
  writer : ResponseWriter

/-- The body of the `range` loop of `Server.header` for one entry. -/
def Server.headerBody (s : Server) (key : String) (value : List String)
    (st : MD × ResponseWriter) : MD × ResponseWriter :=
  if s.httpStatusHeader = key then st
  else
    let r := s.config.Gateway.Header.testRemove (stringsToLower key)
    if r.2 then
      (st.1.Delete key,
        (st.2.headerSet r.1 (stringsJoin value space)).headerDel (grpcMetadataHeader key))
    else st

/-- The `range` loop of `Server.header` over the entries still to visit. An
entry deleted from the map before the loop reaches it is not visited. -/
def Server.headerLoop (s : Server) :
    List (String × List String) → MD × ResponseWriter → MD × ResponseWriter
  | [], st => st
  | (key, value) :: rest, st =>
    if st.1.has key then Server.headerLoop s rest (s.headerBody key value st)
    else Server.headerLoop s rest st

/-- `Server.header`: the new exchange and the returned error. -/
def Server.header (s : Server) (ex : Exchange) : Exchange × Option NumError :=
  match ex.md with
  | none => (ex, none)
  | some md =>
    let r := s.headerLoop md (md, ex.writer)
    ({ md := some r.1, writer := r.2 }, none)

/-- How a call ends: it returns its error result, or it panics. -/
inductive Outcome where
  | returned (err : Option NumError)
  | panicked
  deriving DecidableEq

/-- `Server.status`: the new exchange and how the call ends. The call panics
when `writer.WriteHeader` does. -/
def Server.status (s : Server) (ex : Exchange) : Exchange × Outcome :=
  match ex.md with
  | none => (ex, .returned none)
  | some md =>
    match md.Get s.httpStatusHeader with
    | [] => (ex, .returned none)
    | v :: _ =>
      match strconvAtoi v with
      | .error ae => (ex, .returned (some ae))
      | .ok code =>
        let wr := (ex.writer.headerDel s.grpcStatusHeader).WriteHeader code
        ({ md := some (md.Delete s.httpStatusHeader), writer := wr.1 },
          if wr.2 then .returned none else .panicked)

/-- `Server.response`: the header phase, then, when it returned no error, the
status phase. -/
def Server.response (s : Server) (ex : Exchange) : Exchange × Outcome :=
  match s.header ex with
  | (ex1, some se) => (ex1, .returned (some se))
  | (ex1, none) => s.status ex1

/-- `Server.in`: the result, and the keys with which
`runtime.DefaultHeaderMatcher` was called. -/
def Server.in_ (s : Server) (key : String) : (String × Bool) × List String :=
  let r := s.config.Gateway.Header.testIns key
  if r.2 then ((r.1, true), []) else (s.DefaultHeaderMatcher key, [key])

/-- `Server.out`: the result, and the keys with which
`runtime.DefaultHeaderMatcher` was called. -/
def Server.out (s : Server) (key : String) : (String × Bool) × List String :=
  let r := s.config.Gateway.Header.testOuts key
  if r.2 then ((r.1, true), []) else (s.DefaultHeaderMatcher key, [key])

end PanguGrpc

/-! ## The RPC server setup (`internal/core/server_grpc.go`) -/

namespace PanguGrpc.core

/-- An effect of `setupGrpc` on its collaborators. -/
inductive Effect where
  | registerGrpc
  | loggerInfo
  | goServeRpc
  deriving DecidableEq

/-- The configuration of the core server: `Gateway` is the pointer that
`setupGrpc` compares with `nil`. -/
structure Config where
  Gateway : Option Unit

/-- The `Server` of `internal/core`. The methods `gatewayEnabled` and `diff`
are not among the sources; their results are taken as parameters. -/
structure Server where
  config : Config
  gatewayEnabled : Bool
  diff : Bool

/-- `Server.setupGrpc`: the returned error and the effects in the order the
code performs them; `goServeRpc` is the `go s.serveRpc(listener, &fields)`
statement. -/
def Server.setupGrpc (s : Server) : Option String × List Effect :=
  let pre := [Effect.registerGrpc, Effect.loggerInfo]
  if s.config.Gateway.isNone || (s.gatewayEnabled && s.diff) then
    (none, pre ++ [Effect.goServeRpc])
  else
    (none, pre)

end PanguGrpc.core

/-! ## Vocabulary for the response interceptor -/

namespace PanguGrpc

/-- Whether the loop body of `Server.header` acts on an entry with this key:
the key is not the HTTP-status key and `testRemove` matches its lower-cased
form. -/
def Server.removal (s : Server) (key : String) : Bool :=
  s.httpStatusHeader != key && (s.config.Gateway.Header.testRemove (stringsToLower key)).2

/-- The response header name `testRemove` rewrites the key to. -/
def Server.newKey (s : Server) (key : String) : String :=
  (s.config.Gateway.Header.testRemove (stringsToLower key)).1

/-- No two removed keys of the bag are rewritten to the same canonical response
header, and no removed key is rewritten to the `Grpc-Metadata-` header of a
removed key. -/
def Server.separated (s : Server) (md : MD) : Prop :=
  ∀ e1 ∈ md, ∀ e2 ∈ md, s.removal e1.1 = true → s.removal e2.1 = true →
    (e1.1 ≠ e2.1 →
      canonicalMIMEHeaderKey (s.newKey e1.1) ≠ canonicalMIMEHeaderKey (s.newKey e2.1)) ∧
    canonicalMIMEHeaderKey (s.newKey e1.1)
      ≠ canonicalMIMEHeaderKey (grpcMetadataHeader e2.1)

instance (s : Server) (md : MD) : Decidable (s.separated md) := by
  unfold Server.separated; infer_instance

/-- What the spec says of the two package constants: the HTTP-status key is a
metadata key, hence lower case, and the transcoder's default status header is
the `Grpc-Metadata-` header the transcoder emits for that key. -/
def Server.statusConstants (s : Server) : Prop :=
  stringsToLower s.httpStatusHeader = s.httpStatusHeader ∧
  canonicalMIMEHeaderKey s.grpcStatusHeader
    = canonicalMIMEHeaderKey (grpcMetadataHeader s.httpStatusHeader)

instance (s : Server) : Decidable s.statusConstants := by
  unfold Server.statusConstants; infer_instance

/-- The bag of the exchange, when there is one, has lower-case keys, as have
the bags the `metadata` package and the HTTP/2 transport produce. -/
def Exchange.lowerKeys (ex : Exchange) : Prop :=
  ∀ md, ex.md = some md → md.lowerKeys

/-- Optional white space of a header value: space and tab. -/
def isOWS (c : Char) : Bool :=
  c == ' ' || c == '\t'

/-- The comma-separated elements of a header value; `cur` is the element being
read, reversed. -/
def splitComma : List Char → List Char → List (List Char)
  | [], cur => [cur.reverse]
  | c :: cs, cur => if c == ',' then cur.reverse :: splitComma cs [] else splitComma cs (c :: cur)

/-- Go `httpguts.HeaderValuesContainsToken`: some comma-separated element of
some value, trimmed of optional white space, is the token up to ASCII case. -/
def headerValuesContainsToken (values : List String) (token : String) : Bool :=
  values.any fun v =>
    (splitComma v.data []).any fun part =>
      (((part.dropWhile isOWS).reverse.dropWhile isOWS).reverse).map Char.toLower
        == token.data.map Char.toLower

/-- The test `isH2CUpgrade` of the `h2c` package: `Upgrade` holds the token
`h2c` and `Connection` the token `HTTP2-Settings`. -/
def h2cUpgradeHeaders (h : HttpHeader) : Bool :=
  headerValuesContainsToken ((h.lookup (canonicalMIMEHeaderKey "Upgrade")).getD []) "h2c" &&
  headerValuesContainsToken ((h.lookup (canonicalMIMEHeaderKey "Connection")).getD [])
    "HTTP2-Settings"

end PanguGrpc

/-! ## Concrete configurations and exchanges -/

namespace PanguGrpc

/-- A server with the given header rules, the conventional status key
`x-http-code`, the transcoder header `Grpc-Metadata-X-Http-Code`, a default
matcher that rejects every key, and an `h2c` wrapper that refuses every
upgrade. -/
def demoServer (removes ins outs : List Pattern) : Server where
  config := ⟨⟨⟨removes, ins, outs⟩⟩⟩
  httpStatusHeader := "x-http-code"
  grpcStatusHeader := "Grpc-Metadata-X-Http-Code"
  DefaultHeaderMatcher := fun _ => ("", false)
  isH2CUpgrade := h2cUpgradeHeaders
  serveUpgraded := fun _ => []

/-- Scenario S1: `POST /svc.Method` over HTTP/2 with the content type
`application/grpc+proto`. -/
def rpcRequest : Request where
  Method := "POST"
  Path := "/svc.Method"
  Proto := "HTTP/2.0"
  ProtoMajor := 2
  Header := [("Content-Type", ["application/grpc+proto"])]

/-- The client preface of h2c with prior knowledge, as `net/http` parses it:
`PRI * HTTP/2.0` with no header. -/
def prefaceRequest : Request where
  Method := "PRI"
  Path := "*"
  Proto := "HTTP/2.0"
  ProtoMajor := 2
  Header := []

/-- The RPC set the status `0`, which parses and which `WriteHeader` does not
accept. -/
def zeroStatusExchange : Exchange :=
  ⟨some [("x-http-code", ["0"])], ⟨[("Grpc-Metadata-X-Http-Code", ["0"])], []⟩⟩

/-- An exchange with the given metadata bag and response headers, on a writer
to which nothing has been applied yet. -/
def exchangeOf (md : MD) (hdr : HttpHeader) : Exchange :=
  ⟨some md, ⟨hdr, []⟩⟩

/-- Scenario S2: the RPC returned a status `201` and a request id, and the
transcoder has emitted both as `Grpc-Metadata-` headers. -/
def transcodedExchange : Exchange :=
  exchangeOf [("x-http-code", ["201"]), ("x-request-id", ["abc"])]
    [("Grpc-Metadata-X-Http-Code", ["201"]), ("Grpc-Metadata-X-Request-Id", ["abc"])]

/-- Scenario S3: the status value does not parse. -/
def badStatusExchange : Exchange :=
  exchangeOf [("x-http-code", ["oops"])] [("Grpc-Metadata-X-Http-Code", ["oops"])]

/-- A bag built as a map literal, whose key is not lower case. -/
def upperKeyExchange : Exchange :=
  exchangeOf [("X-Id", ["1"])] [("Grpc-Metadata-X-Id", ["1"])]

/-- A bag with two lower-case keys, the first of which is the
`Grpc-Metadata-` name of the second. -/
def clashExchange : Exchange :=
  exchangeOf [("grpc-metadata-x-id", ["1"]), ("x-id", ["2"])] []

/-- A header configuration with the given `ins` list only. -/
def insOnly (ins : List Pattern) : header := ⟨[], ins, []⟩

/-- The core server of the shared-address case: gateway configured and
enabled, same address as the RPC server. -/
def sharedAddressServer : core.Server where
  config := ⟨some ()⟩
  gatewayEnabled := true
  diff := false

end PanguGrpc

/-! ## Properties of the header rule engine -/

namespace PanguGrpc

/-- The loop returns the result of the first matching pattern. -/
theorem testLoop_of_find (key : String) (p : Pattern) :
    ∀ (l : List Pattern) (acc : String × Bool),
      l.find? (fun q => (q.test key).2) = some p →
        testLoop key l acc = ((p.test key).1, true) := by
  intro l
  induction l with
  | nil => intro acc h; simp at h
  | cons t ts ih =>
    intro acc h
    by_cases ht : (t.test key).2 = true
    · have hp : t = p := by simpa [List.find?, ht] using h
      subst hp
      simp only [testLoop, ht, if_true]
      exact Prod.ext rfl ht
    · have hf : (t.test key).2 = false := by simpa using ht
      have h2 : ts.find? (fun q => (q.test key).2) = some p := by
        simpa [List.find?, hf] using h
      simp only [testLoop, hf]
      exact ih _ h2

/-- When no pattern matches, the loop returns what the last pattern assigned
to the named result `new`, or the initial value on the empty list. -/
theorem testLoop_of_no_match (key : String) :
    ∀ (l : List Pattern) (acc : String × Bool),
      (∀ q ∈ l, (q.test key).2 = false) →
        testLoop key l acc =
          match l.getLast? with
          | none => acc
          | some q => ((q.test key).1, false) := by
  intro l
  induction l with
  | nil => intro acc _; rfl
  | cons t ts ih =>
    intro acc h
    have hf : (t.test key).2 = false := h t (List.mem_cons_self _ _)
    have hts : ∀ q ∈ ts, (q.test key).2 = false := fun q hq => h q (List.mem_cons_of_mem _ hq)
    simp only [testLoop, hf]
    rw [ih _ hts]
    cases ts with
    | nil => simp [List.getLast?]; exact Prod.ext rfl hf
    | cons u us =>
      rw [List.getLast?_cons_cons]
      cases hl : (u :: us).getLast? with
      | none => simp at hl
      | some q => rfl

/-- The matched component of the loop is false exactly when no pattern
matches, whatever the initial value of `new`. -/
theorem testLoop_snd_false (key : String) (l : List Pattern) (a : String) :
    (testLoop key l (a, false)).2 = false ↔ ∀ q ∈ l, (q.test key).2 = false := by
  constructor
  · intro h q hq
    by_contra hne
    have hq2 : (q.test key).2 = true := by simpa using hne
    have hsome : (l.find? (fun q => (q.test key).2)).isSome = true := by
      rw [List.find?_isSome]; exact ⟨q, hq, hq2⟩
    obtain ⟨p, hp⟩ := Option.isSome_iff_exists.mp hsome
    rw [testLoop_of_find key p l _ hp] at h
    simp at h
  · intro h
    rw [testLoop_of_no_match key l _ h]
    cases l.getLast? <;> rfl

end PanguGrpc

namespace PanguGrpc

/-- C6: `Server.in` and `Server.out` return `(k', true)`, with `k'` the
rewritten key of the first matching user pattern, whenever a pattern of `ins`
(respectively `outs`) matches the key, without calling the default matcher;
when no user pattern matches they return the default matcher's result; the
default matcher is called if and only if no user pattern matched. -/
theorem in_out_default_only_without_user_match (s : Server) (key : String) :
    (∀ p, s.config.Gateway.Header.Ins.find? (fun q => (q.test key).2) = some p →
        s.in_ key = (((p.test key).1, true), [])) ∧
    ((∀ q ∈ s.config.Gateway.Header.Ins, (q.test key).2 = false) →
        s.in_ key = (s.DefaultHeaderMatcher key, [key])) ∧
    (∀ p, s.config.Gateway.Header.Outs.find? (fun q => (q.test key).2) = some p →
        s.out key = (((p.test key).1, true), [])) ∧
    ((∀ q ∈ s.config.Gateway.Header.Outs, (q.test key).2 = false) →
        s.out key = (s.DefaultHeaderMatcher key, [key])) ∧
    ((s.in_ key).2 ≠ [] ↔ ∀ q ∈ s.config.Gateway.Header.Ins, (q.test key).2 = false) ∧
    ((s.out key).2 ≠ [] ↔ ∀ q ∈ s.config.Gateway.Header.Outs, (q.test key).2 = false) := by
  have hsome : ∀ (l : List Pattern) (p : Pattern),
      l.find? (fun q => (q.test key).2) = some p →
        testLoop key l ("", false) = ((p.test key).1, true) :=
    fun l p h => testLoop_of_find key p l _ h
  have hnone : ∀ (l : List Pattern), (∀ q ∈ l, (q.test key).2 = false) →
      (testLoop key l ("", false)).2 = false :=
    fun l h => (testLoop_snd_false key l "").mpr h
  have hconv : ∀ (l : List Pattern), (testLoop key l ("", false)).2 = false →
      ∀ q ∈ l, (q.test key).2 = false :=
    fun l h => (testLoop_snd_false key l "").mp h
  refine ⟨?_, ?_, ?_, ?_, ?_, ?_⟩
  · intro p hp
    simp [Server.in_, header.testIns, header._testMatch, hsome _ p hp]
  · intro h
    simp [Server.in_, header.testIns, header._testMatch, hnone _ h]
  · intro p hp
    simp [Server.out, header.testOuts, header._testMatch, hsome _ p hp]
  · intro h
    simp [Server.out, header.testOuts, header._testMatch, hnone _ h]
  · constructor
    · intro h
      apply hconv
      by_contra hne
      have ht : (testLoop key s.config.Gateway.Header.Ins ("", false)).2 = true := by
        simpa using hne
      simp [Server.in_, header.testIns, header._testMatch, ht] at h
    · intro h
      simp [Server.in_, header.testIns, header._testMatch, hnone _ h]
  · constructor
    · intro h
      apply hconv
      by_contra hne
      have ht : (testLoop key s.config.Gateway.Header.Outs ("", false)).2 = true := by
        simpa using hne
      simp [Server.out, header.testOuts, header._testMatch, ht] at h
    · intro h
      simp [Server.out, header.testOuts, header._testMatch, hnone _ h]

/-- The incoming rule `prefix: X-Forwarded` accepts `X-Forwarded-For` although
the default matcher of `demoServer` rejects every key, and the default matcher
is not called. -/
theorem in_out_default_only_without_user_match_witness :
    (demoServer [] [prefixPattern "X-Forwarded"] []).in_ "X-Forwarded-For"
      = (("X-Forwarded-For", true), []) :=
  (in_out_default_only_without_user_match
    (demoServer [] [prefixPattern "X-Forwarded"] []) "X-Forwarded-For").1
    (prefixPattern "X-Forwarded") rfl

/-- C7, as the code has it: for a list `p :: ps`, the list test equals the test
of `[p]` when `p` matches the key, and equals the test of `ps` when `p` does
not match and `ps` is not empty; on a one-pattern list whose pattern does not
match, the result is `(new, false)` with `new` the key that pattern returned. -/
theorem list_test_first_match_step (h : header) (p : Pattern) (ps : List Pattern)
    (key : String) :
    ((p.test key).2 = true →
        h._testMatch (p :: ps) key = h._testMatch [p] key ∧
        (⟨p :: ps, h.Ins, h.Outs⟩ : header).testRemove key
          = (⟨[p], h.Ins, h.Outs⟩ : header).testRemove key) ∧
    ((p.test key).2 = false → ps ≠ [] →
        h._testMatch (p :: ps) key = h._testMatch ps key ∧
        (⟨p :: ps, h.Ins, h.Outs⟩ : header).testRemove key
          = (⟨ps, h.Ins, h.Outs⟩ : header).testRemove key) ∧
    ((p.test key).2 = false →
        h._testMatch [p] key = ((p.test key).1, false) ∧
        (⟨[p], h.Ins, h.Outs⟩ : header).testRemove key = ((p.test key).1, false)) := by
  refine ⟨?_, ?_, ?_⟩
  · intro hm
    simp [header._testMatch, header.testRemove, testLoop, hm]
  · intro hm hne
    cases ps with
    | nil => exact absurd rfl hne
    | cons u us => simp [header._testMatch, header.testRemove, testLoop, hm]
  · intro hm
    have : p.test key = ((p.test key).1, false) := Prod.ext rfl hm
    simp only [header._testMatch, header.testRemove, testLoop, hm]
    exact ⟨this, this⟩

/-- On the rules `[prefix a-, prefix b-]` and the key `b-x` the first rule does
not match and the test of the whole list is the test of the remaining list. -/
theorem list_test_first_match_step_witness :
    (insOnly [])._testMatch [prefixPattern "a-", prefixPattern "b-"] "b-x"
      = (insOnly [])._testMatch [prefixPattern "b-"] "b-x" :=
  ((list_test_first_match_step (insOnly []) (prefixPattern "a-") [prefixPattern "b-"]
    "b-x").2.1 rfl (by simp)).1

/-- C7 fails as stated: on the one-pattern list `[prefix a]` and the key `b`
the pattern does not match, the list test returns `("b", false)` and the test
of the remaining (empty) list returns `("", false)`. -/
theorem list_test_first_match_counterexample :
    ((prefixPattern "a").test "b").2 = false ∧
    (insOnly [])._testMatch [prefixPattern "a"] "b" = ("b", false) ∧
    (insOnly [])._testMatch ([prefixPattern "a"].tail) "b" = ("", false) ∧
    (insOnly [])._testMatch [prefixPattern "a"] "b"
      ≠ (insOnly [])._testMatch ([prefixPattern "a"].tail) "b" := by
  decide

/-- C8, as the code has it: when every pattern of a list rejects the key and
returns it unchanged, `testRemove`, `testIns` and `testOuts` return
`(key, false)` on a non-empty list and `("", false)` on the empty list. -/
theorem list_test_no_match (h : header) (key : String) :
    ((∀ q ∈ h.Removes, q.test key = (key, false)) →
        h.testRemove key = (if h.Removes.isEmpty then "" else key, false)) ∧
    ((∀ q ∈ h.Ins, q.test key = (key, false)) →
        h.testIns key = (if h.Ins.isEmpty then "" else key, false)) ∧
    ((∀ q ∈ h.Outs, q.test key = (key, false)) →
        h.testOuts key = (if h.Outs.isEmpty then "" else key, false)) := by
  have main : ∀ l : List Pattern, (∀ q ∈ l, q.test key = (key, false)) →
      testLoop key l ("", false) = (if l.isEmpty then "" else key, false) := by
    intro l hl
    have hf : ∀ q ∈ l, (q.test key).2 = false := fun q hq => by rw [hl q hq]
    rw [testLoop_of_no_match key l _ hf]
    cases l with
    | nil => rfl
    | cons t ts =>
      have hmem : (t :: ts).getLast (List.cons_ne_nil _ _) ∈ t :: ts := List.getLast_mem _
      rw [List.getLast?_eq_getLast _ (List.cons_ne_nil _ _)]
      simp [hl _ hmem]
  exact ⟨main _, main _, main _⟩

/-- On the rule `prefix x-` the key `y-id`, which the rule rejects, comes back
unchanged with `matched = false`. -/
theorem list_test_no_match_witness :
    (insOnly [prefixPattern "x-"]).testIns "y-id" = ("y-id", false) :=
  (list_test_no_match (insOnly [prefixPattern "x-"]) "y-id").2.1 (by decide)

/-- C8 fails as stated on the empty list: no pattern matches the key `x`, and
the three tests return `("", false)`, not `("x", false)`. -/
theorem list_test_no_match_counterexample :
    (insOnly []).testRemove "x" = ("", false) ∧
    (insOnly []).testIns "x" = ("", false) ∧
    (insOnly []).testOuts "x" = ("", false) ∧
    (insOnly []).testRemove "x" ≠ ("x", false) := by
  decide

end PanguGrpc

/-! ## Properties of the demultiplexer and of the RPC setup -/

namespace PanguGrpc

/-- The prefix test is the prefix relation on the characters. -/
theorem startsWithChars_iff (s p : List Char) : startsWithChars s p = true ↔ p <+: s := by
  induction s generalizing p with
  | nil => cases p <;> simp [startsWithChars]
  | cons c s ih =>
    cases p with
    | nil => simp [startsWithChars]
    | cons d p =>
      simp only [startsWithChars, Bool.and_eq_true, beq_iff_eq, ih, List.cons_prefix_cons]
      constructor
      · rintro ⟨h1, h2⟩; exact ⟨h1.symm, h2⟩
      · rintro ⟨h1, h2⟩; exact ⟨h1.symm, h2⟩

/-- The search of `strings.Contains` is the contiguous-sublist relation on the
characters. -/
theorem containsChars_iff (s sub : List Char) : containsChars s sub = true ↔ sub <:+: s := by
  induction s with
  | nil => cases sub <;> simp [containsChars]
  | cons c s ih =>
    simp only [containsChars, Bool.or_eq_true, startsWithChars_iff, ih, List.infix_cons_iff]

/-- The function literal of `Server.handler` makes exactly one `ServeHTTP`
call: the RPC server's when the request has `ProtoMajor == 2` and a
`Content-Type` containing `application/grpc`, the gateway's otherwise. -/
theorem handlerFunc_cases (s : Server) (r : Request) :
    (r.ProtoMajor = 2 ∧
        stringsContains (r.Header.Get "Content-Type") "application/grpc" = true →
      s.handlerFunc r = [ServeCall.grpc]) ∧
    (¬ (r.ProtoMajor = 2 ∧
        stringsContains (r.Header.Get "Content-Type") "application/grpc" = true) →
      s.handlerFunc r = [ServeCall.gateway]) := by
  constructor
  · intro h
    simp [Server.handlerFunc, h.1, h.2]
  · intro h
    unfold Server.handlerFunc
    rw [if_neg]
    simpa using h

/-- C1, as the code has it: a request that is neither the client preface of
h2c with prior knowledge nor an h2c upgrade request is passed by the handler to
the function literal, which calls the RPC server's `ServeHTTP` if and only if
the request has `ProtoMajor == 2` and a `Content-Type` containing
`application/grpc`, calls the gateway mux otherwise, and makes exactly one
`ServeHTTP` call; the function literal does so with every request it is called
with, those of a connection the HTTP/2 server has taken over included. -/
theorem handler_dispatches_to_exactly_one (s : Server) (r : Request) :
    (h2cPriorKnowledge r = false → s.isH2CUpgrade r.Header = false →
      s.handler r = s.handlerFunc r ∧
      (s.handler r = [ServeCall.grpc] ↔
        (r.ProtoMajor = 2 ∧
          stringsContains (r.Header.Get "Content-Type") "application/grpc" = true)) ∧
      (s.handler r = [ServeCall.gateway] ↔
        ¬ (r.ProtoMajor = 2 ∧
          stringsContains (r.Header.Get "Content-Type") "application/grpc" = true)) ∧
      (s.handler r).length = 1 ∧
      (s.handler r).count ServeCall.grpc + (s.handler r).count ServeCall.gateway = 1) ∧
    (s.handlerFunc r = [ServeCall.grpc] ↔
      (r.ProtoMajor = 2 ∧
        stringsContains (r.Header.Get "Content-Type") "application/grpc" = true)) ∧
    (s.handlerFunc r = [ServeCall.gateway] ↔
      ¬ (r.ProtoMajor = 2 ∧
        stringsContains (r.Header.Get "Content-Type") "application/grpc" = true)) ∧
    (s.handlerFunc r).length = 1 ∧
    (s.handlerFunc r).count ServeCall.grpc + (s.handlerFunc r).count ServeCall.gateway = 1 := by
  have hfun : (s.handlerFunc r = [ServeCall.grpc] ↔
        (r.ProtoMajor = 2 ∧
          stringsContains (r.Header.Get "Content-Type") "application/grpc" = true)) ∧
      (s.handlerFunc r = [ServeCall.gateway] ↔
        ¬ (r.ProtoMajor = 2 ∧
          stringsContains (r.Header.Get "Content-Type") "application/grpc" = true)) ∧
      (s.handlerFunc r).length = 1 ∧
      (s.handlerFunc r).count ServeCall.grpc
        + (s.handlerFunc r).count ServeCall.gateway = 1 := by
    by_cases h : r.ProtoMajor = 2 ∧
        stringsContains (r.Header.Get "Content-Type") "application/grpc" = true
    · rw [(handlerFunc_cases s r).1 h]
      simp [h]
    · rw [(handlerFunc_cases s r).2 h]
      simp [h]
  refine ⟨?_, hfun⟩
  intro hp hu
  have heq : s.handler r = s.handlerFunc r := by
    simp [Server.handler, hp, hu]
  rw [heq]
  exact ⟨rfl, hfun⟩

/-- In scenario S1 the handler calls the RPC server and not the gateway mux. -/
theorem handler_dispatches_to_exactly_one_witness :
    (demoServer [] [] []).handler rpcRequest = [ServeCall.grpc] :=
  ((handler_dispatches_to_exactly_one (demoServer [] [] []) rpcRequest).1
    (by decide) (by decide)).2.1.mpr (by decide)

/-- C1 fails as stated: with the client preface `PRI * HTTP/2.0` of h2c with
prior knowledge, a request with `ProtoMajor == 2` and no content type, the
handler built by `h2c.NewHandler` calls neither the RPC server's nor the
gateway mux's `ServeHTTP`. -/
theorem handler_dispatches_to_exactly_one_counterexample :
    prefaceRequest.ProtoMajor = 2 ∧
    stringsContains (prefaceRequest.Header.Get "Content-Type") "application/grpc" = false ∧
    (demoServer [] [] []).handler prefaceRequest = [] ∧
    (demoServer [] [] []).handler prefaceRequest ≠ [ServeCall.gateway] ∧
    ((demoServer [] [] []).handler prefaceRequest).length ≠ 1 := by
  decide

end PanguGrpc

namespace PanguGrpc.core

/-- C10: `setupGrpc` starts the RPC serving task if and only if there is no
gateway configuration or the gateway is enabled with `diff()` true; with a
gateway configured and enabled and `diff()` false it starts none; in every
case it returns a nil error and calls `Register.Grpc` once. -/
theorem setupGrpc_serves_rpc_iff (s : Server) :
    (Effect.goServeRpc ∈ s.setupGrpc.2 ↔
      (s.config.Gateway = none ∨ (s.gatewayEnabled = true ∧ s.diff = true))) ∧
    (s.config.Gateway ≠ none → s.gatewayEnabled = true → s.diff = false →
      Effect.goServeRpc ∉ s.setupGrpc.2) ∧
    s.setupGrpc.2.count Effect.goServeRpc ≤ 1 ∧
    s.setupGrpc.1 = none ∧
    s.setupGrpc.2.count Effect.registerGrpc = 1 ∧
    s.setupGrpc.2.head? = some Effect.registerGrpc := by
  obtain ⟨⟨g⟩, e, d⟩ := s
  cases g <;> cases e <;> cases d <;> simp [Server.setupGrpc]

/-- In the shared-address case no RPC serving task is started. -/
theorem setupGrpc_serves_rpc_iff_witness :
    Effect.goServeRpc ∉ sharedAddressServer.setupGrpc.2 :=
  (setupGrpc_serves_rpc_iff sharedAddressServer).2.1 (by decide) rfl rfl

end PanguGrpc.core

/-! ## Properties of the response interceptor -/

namespace PanguGrpc

/-- A key filtered out of an association list is not found by a lookup. -/
theorem lookup_filter_self (l : List (String × List String)) (k : String) :
    (l.filter (fun e => e.1 != k)).lookup k = none := by
  induction l with
  | nil => rfl
  | cons e es ih =>
    obtain ⟨a, b⟩ := e
    by_cases h : a = k
    · rw [List.filter_cons_of_neg (by simp [h])]
      exact ih
    · rw [List.filter_cons_of_pos (by simp [h])]
      have hk : (k == a) = false := by simpa using fun h2 => h h2.symm
      rw [List.lookup_cons, hk]
      exact ih

/-- Filtering out one key leaves the lookup of every other key unchanged. -/
theorem lookup_filter_of_ne (l : List (String × List String)) (k k' : String) (hne : k' ≠ k) :
    (l.filter (fun e => e.1 != k)).lookup k' = l.lookup k' := by
  induction l with
  | nil => rfl
  | cons e es ih =>
    obtain ⟨a, b⟩ := e
    by_cases h : a = k
    · rw [List.filter_cons_of_neg (by simp [h])]
      have hk : (k' == a) = false := by simpa [h] using hne
      rw [List.lookup_cons, hk]
      exact ih
    · rw [List.filter_cons_of_pos (by simp [h])]
      rw [List.lookup_cons, List.lookup_cons, ih]

/-- An entry of a filtered list is an entry of the list. -/
theorem mem_of_mem_Delete (md : MD) (k : String) (e : String × List String)
    (h : e ∈ md.Delete k) : e ∈ md ∧ e.1 ≠ stringsToLower k := by
  simpa [MD.Delete] using h

/-- A key present after a deletion was present before. -/
theorem has_of_has_Delete (md : MD) (k k' : String) (h : (md.Delete k).has k' = true) :
    md.has k' = true ∧ k' ≠ stringsToLower k := by
  by_cases hk : k' = stringsToLower k
  · subst hk
    simp [MD.has, MD.Delete, lookup_filter_self] at h
  · refine ⟨?_, hk⟩
    simpa [MD.has, MD.Delete, lookup_filter_of_ne _ _ _ hk] using h

/-- The value a header map holds under a canonical key after `Set`. -/
theorem lookup_Set (h : HttpHeader) (key value c : String) :
    (h.Set key value).lookup c
      = if c = canonicalMIMEHeaderKey key then some [value] else h.lookup c := by
  by_cases hc : c = canonicalMIMEHeaderKey key
  · subst hc
    simp [HttpHeader.Set, List.lookup]
  · have hk : (c == canonicalMIMEHeaderKey key) = false := by simpa using hc
    simp [HttpHeader.Set, List.lookup, hk, hc, lookup_filter_of_ne _ _ _ hc]

/-- The value a header map holds under a canonical key after `Del`. -/
theorem lookup_Del (h : HttpHeader) (key c : String) :
    (h.Del key).lookup c = if c = canonicalMIMEHeaderKey key then none else h.lookup c := by
  by_cases hc : c = canonicalMIMEHeaderKey key
  · subst hc
    simp [HttpHeader.Del, lookup_filter_self]
  · simp [HttpHeader.Del, hc, lookup_filter_of_ne _ _ _ hc]

/-- The loop body on a key it acts on. -/
theorem headerBody_of_removal (s : Server) (key : String) (value : List String)
    (st : MD × ResponseWriter) (h : s.removal key = true) :
    s.headerBody key value st
      = (st.1.Delete key,
          (st.2.headerSet (s.newKey key) (stringsJoin value space)).headerDel
            (grpcMetadataHeader key)) := by
  simp only [Server.removal, Bool.and_eq_true, bne_iff_ne, ne_eq] at h
  simp [Server.headerBody, Server.newKey, h.1, h.2]

/-- The loop body on a key it does not act on. -/
theorem headerBody_of_not_removal (s : Server) (key : String) (value : List String)
    (st : MD × ResponseWriter) (h : s.removal key = false) :
    s.headerBody key value st = st := by
  by_cases hk : s.httpStatusHeader = key
  · simp [Server.headerBody, hk]
  · have : (s.config.Gateway.Header.testRemove (stringsToLower key)).2 = false := by
      simpa [Server.removal, hk] using h
    simp [Server.headerBody, hk, this]

/-- An entry of the bag is found under its key. -/
theorem has_of_mem (md : MD) (e : String × List String) (h : e ∈ md) : md.has e.1 = true := by
  induction md with
  | nil => simp at h
  | cons a as ih =>
    obtain ⟨k, v⟩ := a
    by_cases hk : e.1 = k
    · simp [MD.has, List.lookup_cons, hk]
    · have hb : (e.1 == k) = false := by simpa using hk
      have hmem : e ∈ as := by
        rcases List.mem_cons.mp h with h1 | h1
        · exact absurd (by rw [h1]) hk
        · exact h1
      have := ih hmem
      simpa [MD.has, List.lookup_cons, hb] using this

/-- A successful lookup returns an entry of the bag. -/
theorem mem_of_lookup (md : MD) (k : String) (v : List String) (h : md.lookup k = some v) :
    (k, v) ∈ md := by
  induction md with
  | nil => simp at h
  | cons a as ih =>
    obtain ⟨k', v'⟩ := a
    by_cases hk : k = k'
    · subst hk
      have : v' = v := by simpa [List.lookup_cons] using h
      simp [this]
    · have hb : (k == k') = false := by simpa using hk
      rw [List.lookup_cons, hb] at h
      exact List.mem_cons_of_mem _ (ih h)

/-- A key other than the deleted one stays present. -/
theorem has_Delete_of_ne (md : MD) (k k' : String) (h : md.has k' = true)
    (hne : k' ≠ stringsToLower k) : (md.Delete k).has k' = true := by
  simpa [MD.has, MD.Delete, lookup_filter_of_ne _ _ _ hne] using h

/-- The loop changes nothing when it acts on no entry. -/
theorem headerLoop_of_no_removal (s : Server) :
    ∀ (l : List (String × List String)) (st : MD × ResponseWriter),
      (∀ e ∈ l, s.removal e.1 = false) → s.headerLoop l st = st := by
  intro l
  induction l with
  | nil => intro st _; rfl
  | cons a as ih =>
    intro st h
    obtain ⟨k, v⟩ := a
    have hk : s.removal k = false := h (k, v) (List.mem_cons_self _ _)
    have has' : ∀ e ∈ as, s.removal e.1 = false := fun e he => h e (List.mem_cons_of_mem _ he)
    simp only [Server.headerLoop, headerBody_of_not_removal s k v st hk, ite_self]
    exact ih st has'

/-- The loop leaves the entry of every key it does not act on in the bag. -/
theorem headerLoop_lookup_md (s : Server) (k : String) (hk : s.removal k = false) :
    ∀ (l : List (String × List String)) (st : MD × ResponseWriter),
      MD.lowerKeys l → (s.headerLoop l st).1.lookup k = st.1.lookup k := by
  intro l
  induction l with
  | nil => intro st _; rfl
  | cons a as ih =>
    intro st hl
    obtain ⟨key, value⟩ := a
    have hlas : MD.lowerKeys as := fun e he => hl e (List.mem_cons_of_mem _ he)
    have hkey : stringsToLower key = key := hl (key, value) (List.mem_cons_self _ _)
    simp only [Server.headerLoop]
    split
    · by_cases hr : s.removal key = true
      · rw [ih _ hlas, headerBody_of_removal s key value st hr]
        have hne : k ≠ stringsToLower key := by
          rw [hkey]; intro h; rw [h, hr] at hk; exact Bool.noConfusion hk
        exact lookup_filter_of_ne _ _ _ hne
      · have hr' : s.removal key = false := by simpa using hr
        rw [ih _ hlas, headerBody_of_not_removal s key value st hr']
    · exact ih _ hlas

/-- After the loop has visited every key the bag holds, no entry on which the
loop acts is left in the bag. -/
theorem headerLoop_no_removal_left (s : Server) :
    ∀ (l : List (String × List String)) (st : MD × ResponseWriter),
      MD.lowerKeys l →
      (∀ e ∈ st.1, s.removal e.1 = true → e.1 ∈ l.map Prod.fst) →
      ∀ e ∈ (s.headerLoop l st).1, s.removal e.1 = false := by
  intro l
  induction l with
  | nil =>
    intro st _ h e he
    by_contra hne
    have := h e he (by simpa using hne)
    simp at this
  | cons a as ih =>
    intro st hl h
    obtain ⟨key, value⟩ := a
    have hlas : MD.lowerKeys as := fun e he => hl e (List.mem_cons_of_mem _ he)
    have hkey : stringsToLower key = key := hl (key, value) (List.mem_cons_self _ _)
    simp only [Server.headerLoop]
    split
    · by_cases hr : s.removal key = true
      · rw [headerBody_of_removal s key value st hr]
        apply ih _ hlas
        intro e he her
        obtain ⟨hmem, hne⟩ := mem_of_mem_Delete _ _ _ he
        rw [hkey] at hne
        have := h e hmem her
        simpa [hne] using this
      · have hr' : s.removal key = false := by simpa using hr
        rw [headerBody_of_not_removal s key value st hr']
        apply ih _ hlas
        intro e he her
        have hne : e.1 ≠ key := by
          intro heq; rw [heq, hr'] at her; exact Bool.noConfusion her
        have := h e he her
        simpa [hne] using this
    · rename_i hhas
      apply ih _ hlas
      intro e he her
      have hne : e.1 ≠ key := by
        intro heq
        have := has_of_mem _ e he
        rw [heq] at this
        exact hhas this
      have := h e he her
      simpa [hne] using this

/-- The operations the loop applies to the writer all stem from entries it
acts on: each is the `Set` of the rewritten key or the `Del` of the
`Grpc-Metadata-` header of such an entry. -/
theorem headerLoop_log (s : Server) :
    ∀ (l : List (String × List String)) (st : MD × ResponseWriter),
      ∃ ops, (s.headerLoop l st).2.log = st.2.log ++ ops ∧
        ∀ o ∈ ops, ∃ e ∈ l, s.removal e.1 = true ∧
          (o = WriterOp.headerSet (s.newKey e.1) (stringsJoin e.2 space) ∨
           o = WriterOp.headerDel (grpcMetadataHeader e.1)) := by
  intro l
  induction l with
  | nil => intro st; exact ⟨[], by simp [Server.headerLoop], by simp⟩
  | cons a as ih =>
    intro st
    obtain ⟨key, value⟩ := a
    have lift : ∀ (st' : MD × ResponseWriter) (pre : List WriterOp),
        st'.2.log = st.2.log ++ pre →
        (∀ o ∈ pre, ∃ e ∈ (key, value) :: as, s.removal e.1 = true ∧
          (o = WriterOp.headerSet (s.newKey e.1) (stringsJoin e.2 space) ∨
           o = WriterOp.headerDel (grpcMetadataHeader e.1))) →
        ∃ ops, (s.headerLoop as st').2.log = st.2.log ++ ops ∧
          ∀ o ∈ ops, ∃ e ∈ (key, value) :: as, s.removal e.1 = true ∧
            (o = WriterOp.headerSet (s.newKey e.1) (stringsJoin e.2 space) ∨
             o = WriterOp.headerDel (grpcMetadataHeader e.1)) := by
      intro st' pre hpre hall
      obtain ⟨ops, h1, h2⟩ := ih st'
      refine ⟨pre ++ ops, by rw [h1, hpre, List.append_assoc], ?_⟩
      intro o ho
      rcases List.mem_append.mp ho with h | h
      · exact hall o h
      · obtain ⟨e, he, hr⟩ := h2 o h
        exact ⟨e, List.mem_cons_of_mem _ he, hr⟩
    simp only [Server.headerLoop]
    split
    · by_cases hr : s.removal key = true
      · rw [headerBody_of_removal s key value st hr]
        apply lift _ [WriterOp.headerSet (s.newKey key) (stringsJoin value space),
          WriterOp.headerDel (grpcMetadataHeader key)]
        · simp [ResponseWriter.headerSet, ResponseWriter.headerDel]
        · intro o ho
          refine ⟨(key, value), List.mem_cons_self _ _, hr, ?_⟩
          simpa using ho
      · have hr' : s.removal key = false := by simpa using hr
        rw [headerBody_of_not_removal s key value st hr']
        exact lift st [] (by simp) (by simp)
    · exact lift st [] (by simp) (by simp)

/-- The loop leaves a response header untouched when no entry it acts on
sets or deletes it. -/
theorem headerLoop_hdr_lookup (s : Server) (c : String) :
    ∀ (l : List (String × List String)) (st : MD × ResponseWriter),
      (∀ e ∈ l, st.1.has e.1 = true → s.removal e.1 = true →
        canonicalMIMEHeaderKey (s.newKey e.1) ≠ c ∧
        canonicalMIMEHeaderKey (grpcMetadataHeader e.1) ≠ c) →
      (s.headerLoop l st).2.hdr.lookup c = st.2.hdr.lookup c := by
  intro l
  induction l with
  | nil => intro st _; rfl
  | cons a as ih =>
    intro st h
    obtain ⟨key, value⟩ := a
    have has' : ∀ e ∈ as, st.1.has e.1 = true → s.removal e.1 = true →
        canonicalMIMEHeaderKey (s.newKey e.1) ≠ c ∧
        canonicalMIMEHeaderKey (grpcMetadataHeader e.1) ≠ c :=
      fun e he => h e (List.mem_cons_of_mem _ he)
    simp only [Server.headerLoop]
    split
    · rename_i hhas
      by_cases hr : s.removal key = true
      · obtain ⟨h1, h2⟩ := h (key, value) (List.mem_cons_self _ _) hhas hr
        rw [headerBody_of_removal s key value st hr, ih]
        · simp only [ResponseWriter.headerSet, ResponseWriter.headerDel, lookup_Del,
            lookup_Set]
          rw [if_neg (fun hc => h2 hc.symm), if_neg (fun hc => h1 hc.symm)]
        · intro e he hh
          exact has' e he (has_of_has_Delete _ _ _ hh).1
      · have hr' : s.removal key = false := by simpa using hr
        rw [headerBody_of_not_removal s key value st hr']
        exact ih st has'
    · exact ih st has'

/-- The loop leaves a response header absent when no entry it acts on sets
it. -/
theorem headerLoop_hdr_lookup_none (s : Server) (c : String) :
    ∀ (l : List (String × List String)) (st : MD × ResponseWriter),
      st.2.hdr.lookup c = none →
      (∀ e ∈ l, st.1.has e.1 = true → s.removal e.1 = true →
        canonicalMIMEHeaderKey (s.newKey e.1) ≠ c) →
      (s.headerLoop l st).2.hdr.lookup c = none := by
  intro l
  induction l with
  | nil => intro st h0 _; exact h0
  | cons a as ih =>
    intro st h0 h
    obtain ⟨key, value⟩ := a
    have has' : ∀ e ∈ as, st.1.has e.1 = true → s.removal e.1 = true →
        canonicalMIMEHeaderKey (s.newKey e.1) ≠ c :=
      fun e he => h e (List.mem_cons_of_mem _ he)
    simp only [Server.headerLoop]
    split
    · rename_i hhas
      by_cases hr : s.removal key = true
      · have h1 := h (key, value) (List.mem_cons_self _ _) hhas hr
        rw [headerBody_of_removal s key value st hr]
        apply ih
        · have h1' : ¬ c = canonicalMIMEHeaderKey (s.newKey key) := fun hc => h1 hc.symm
          simp [ResponseWriter.headerSet, ResponseWriter.headerDel, lookup_Del,
            lookup_Set, h1', h0]
        · intro e he hh
          exact has' e he (has_of_has_Delete _ _ _ hh).1
      · have hr' : s.removal key = false := by simpa using hr
        rw [headerBody_of_not_removal s key value st hr']
        exact ih st h0 has'
    · exact ih st h0 has'

/-- The response headers a removed key ends with: its rewritten key holds the
joined values and its `Grpc-Metadata-` header is absent, when no other removed
key touches the former or sets the latter. -/
theorem headerLoop_removed_key (s : Server) (k : String) (v : List String)
    (hr : s.removal k = true)
    (hself : canonicalMIMEHeaderKey (s.newKey k)
      ≠ canonicalMIMEHeaderKey (grpcMetadataHeader k)) :
    ∀ (l : List (String × List String)) (st : MD × ResponseWriter),
      MD.lowerKeys l → l.lookup k = some v → st.1.has k = true →
      (∀ e ∈ l, e.1 ≠ k → s.removal e.1 = true →
        canonicalMIMEHeaderKey (s.newKey e.1) ≠ canonicalMIMEHeaderKey (s.newKey k) ∧
        canonicalMIMEHeaderKey (grpcMetadataHeader e.1)
          ≠ canonicalMIMEHeaderKey (s.newKey k) ∧
        canonicalMIMEHeaderKey (s.newKey e.1)
          ≠ canonicalMIMEHeaderKey (grpcMetadataHeader k)) →
      (s.headerLoop l st).2.hdr.lookup (canonicalMIMEHeaderKey (s.newKey k))
          = some [stringsJoin v space] ∧
      (s.headerLoop l st).2.hdr.lookup (canonicalMIMEHeaderKey (grpcMetadataHeader k))
          = none := by
  intro l
  induction l with
  | nil => intro st _ hlk; simp at hlk
  | cons a as ih =>
    intro st hl hlk hhas hsep
    obtain ⟨key, value⟩ := a
    have hlas : MD.lowerKeys as := fun e he => hl e (List.mem_cons_of_mem _ he)
    have hkey : stringsToLower key = key := hl (key, value) (List.mem_cons_self _ _)
    have hsep' : ∀ e ∈ as, e.1 ≠ k → s.removal e.1 = true →
        canonicalMIMEHeaderKey (s.newKey e.1) ≠ canonicalMIMEHeaderKey (s.newKey k) ∧
        canonicalMIMEHeaderKey (grpcMetadataHeader e.1)
          ≠ canonicalMIMEHeaderKey (s.newKey k) ∧
        canonicalMIMEHeaderKey (s.newKey e.1)
          ≠ canonicalMIMEHeaderKey (grpcMetadataHeader k) :=
      fun e he => hsep e (List.mem_cons_of_mem _ he)
    by_cases hk : k = key
    · subst hk
      have hv : value = v := by simpa [List.lookup_cons] using hlk
      subst hv
      simp only [Server.headerLoop, hhas, if_true]
      rw [headerBody_of_removal s k value st hr]
      constructor
      · rw [headerLoop_hdr_lookup]
        · simp [ResponseWriter.headerSet, ResponseWriter.headerDel, lookup_Del,
            lookup_Set, hself]
        · intro e he hh her
          have hne : e.1 ≠ k := by
            have := (has_of_has_Delete _ _ _ hh).2
            rwa [hkey] at this
          obtain ⟨h1, h2, _⟩ := hsep' e he hne her
          exact ⟨h1, h2⟩
      · apply headerLoop_hdr_lookup_none
        · simp [ResponseWriter.headerSet, ResponseWriter.headerDel, lookup_Del]
        · intro e he hh her
          have hne : e.1 ≠ k := by
            have := (has_of_has_Delete _ _ _ hh).2
            rwa [hkey] at this
          exact (hsep' e he hne her).2.2
    · have hb : (k == key) = false := by simpa using hk
      rw [List.lookup_cons, hb] at hlk
      simp only [Server.headerLoop]
      split
      · by_cases hrk : s.removal key = true
        · rw [headerBody_of_removal s key value st hrk]
          apply ih _ hlas hlk _ hsep'
          exact has_Delete_of_ne _ _ _ hhas (by rw [hkey]; exact hk)
        · have hrk' : s.removal key = false := by simpa using hrk
          rw [headerBody_of_not_removal s key value st hrk']
          exact ih _ hlas hlk hhas hsep'
      · exact ih _ hlas hlk hhas hsep'

/-- What `removal` unfolds to. -/
theorem removal_eq_true_iff (s : Server) (k : String) :
    s.removal k = true ↔
      k ≠ s.httpStatusHeader ∧
        (s.config.Gateway.Header.testRemove (stringsToLower k)).2 = true := by
  simp only [Server.removal, Bool.and_eq_true, bne_iff_ne, ne_eq]
  constructor
  · rintro ⟨h1, h2⟩; exact ⟨fun h => h1 h.symm, h2⟩
  · rintro ⟨h1, h2⟩; exact ⟨fun h => h1 h.symm, h2⟩

/-- The header phase on an exchange with a bag. -/
theorem header_of_some (s : Server) (ex : Exchange) (md : MD) (hmd : ex.md = some md) :
    s.header ex
      = ({ md := some (s.headerLoop md (md, ex.writer)).1,
           writer := (s.headerLoop md (md, ex.writer)).2 }, none) := by
  simp [Server.header, hmd]

/-- The header phase changes nothing on a bag none of whose entries it acts
on. -/
theorem header_of_no_removal (s : Server) (ex : Exchange) (md : MD) (hmd : ex.md = some md)
    (h : ∀ e ∈ md, s.removal e.1 = false) : s.header ex = (ex, none) := by
  rw [header_of_some s ex md hmd, headerLoop_of_no_removal s md _ h]
  obtain ⟨m, w⟩ := ex
  simp only at hmd
  subst hmd
  rfl

/-- The status phase when the bag holds no status value. -/
theorem status_of_nil (s : Server) (ex : Exchange) (md : MD) (hmd : ex.md = some md)
    (hget : md.Get s.httpStatusHeader = []) : s.status ex = (ex, .returned none) := by
  simp [Server.status, hmd, hget]

/-- The status phase when the first status value does not parse. -/
theorem status_of_error (s : Server) (ex : Exchange) (md : MD) (v : String)
    (rest : List String) (ae : NumError) (hmd : ex.md = some md)
    (hget : md.Get s.httpStatusHeader = v :: rest) (hparse : strconvAtoi v = .error ae) :
    s.status ex = (ex, .returned (some ae)) := by
  simp [Server.status, hmd, hget, hparse]

/-- The status phase when the first status value parses. -/
theorem status_of_ok (s : Server) (ex : Exchange) (md : MD) (v : String)
    (rest : List String) (code : Int) (hmd : ex.md = some md)
    (hget : md.Get s.httpStatusHeader = v :: rest) (hparse : strconvAtoi v = .ok code) :
    s.status ex
      = ({ md := some (md.Delete s.httpStatusHeader),
           writer := ((ex.writer.headerDel s.grpcStatusHeader).WriteHeader code).1 },
          if checkWriteHeaderCode code then .returned none else .panicked) := by
  simp [Server.status, hmd, hget, hparse, ResponseWriter.WriteHeader]

/-- The response is the status phase applied to the outcome of the header
phase, which returns no error. -/
theorem response_eq_status_header (s : Server) (ex : Exchange) :
    s.response ex = s.status (s.header ex).1 := by
  cases hmd : ex.md with
  | none => simp [Server.response, Server.header, hmd]
  | some md => simp [Server.response, header_of_some s ex md hmd]

/-- C3, as the code has it: when the bag holds a value under the HTTP-status
key whose first entry parses as the integer `code`, `Server.status` deletes
that key from the bag, deletes the default status header from the response
headers, and calls `WriteHeader` exactly once, with `code`; it then returns nil
when `code` is between 100 and 999, and panics in `WriteHeader` otherwise. -/
theorem status_writes_parsed_code (s : Server) (ex : Exchange) (md : MD) (v : String)
    (rest : List String) (code : Int) (hmd : ex.md = some md)
    (hget : md.Get s.httpStatusHeader = v :: rest) (hparse : strconvAtoi v = .ok code) :
    (100 ≤ code → code ≤ 999 → (s.status ex).2 = Outcome.returned none) ∧
    (code < 100 ∨ 999 < code → (s.status ex).2 = Outcome.panicked) ∧
    (s.status ex).1.md = some (md.Delete s.httpStatusHeader) ∧
    (md.Delete s.httpStatusHeader).Get s.httpStatusHeader = [] ∧
    (s.status ex).1.writer.hdr.lookup (canonicalMIMEHeaderKey s.grpcStatusHeader) = none ∧
    (s.status ex).1.writer.hdr.Get s.grpcStatusHeader = "" ∧
    (s.status ex).1.writer.log
      = ex.writer.log ++ [WriterOp.headerDel s.grpcStatusHeader, WriterOp.writeHeader code] ∧
    ((s.status ex).1.writer.log.drop ex.writer.log.length).filter WriterOp.isWriteHeader
      = [WriterOp.writeHeader code] := by
  have hst := status_of_ok s ex md v rest code hmd hget hparse
  have hlk : ((ex.writer.headerDel s.grpcStatusHeader).WriteHeader code).1.hdr.lookup
      (canonicalMIMEHeaderKey s.grpcStatusHeader) = none := by
    simp [ResponseWriter.WriteHeader, ResponseWriter.headerDel, lookup_Del]
  rw [hst]
  refine ⟨?_, ?_, rfl, ?_, hlk, ?_, ?_, ?_⟩
  · intro h1 h2
    have hc : checkWriteHeaderCode code = true := by
      simp [checkWriteHeaderCode, not_lt.mpr h1, not_lt.mpr h2]
    simp [hc]
  · intro h
    have hc : checkWriteHeaderCode code = false := by
      rcases h with h | h
      · simp [checkWriteHeaderCode, h]
      · simp [checkWriteHeaderCode, h]
    simp [hc]
  · simp [MD.Get, MD.Delete, lookup_filter_self]
  · simp only [HttpHeader.Get, hlk]
  · simp [ResponseWriter.WriteHeader, ResponseWriter.headerDel]
  · simp [ResponseWriter.WriteHeader, ResponseWriter.headerDel, WriterOp.isWriteHeader]

/-- In scenario S2 the status phase alone returns nil, having written the
status `201`. -/
theorem status_writes_parsed_code_witness :
    ((demoServer [prefixPattern "x-request-"] [] []).status transcodedExchange).2
      = Outcome.returned none :=
  (status_writes_parsed_code (demoServer [prefixPattern "x-request-"] [] [])
    transcodedExchange [("x-http-code", ["201"]), ("x-request-id", ["abc"])] "201" [] 201
    rfl rfl rfl).1 (by decide) (by decide)

/-- C3 fails as stated: the status value `0` parses as the integer 0,
`Server.status` calls `WriteHeader(0)`, which panics, and does not return
nil. -/
theorem status_writes_parsed_code_counterexample :
    MD.Get [("x-http-code", ["0"])] (demoServer [] [] []).httpStatusHeader = ["0"] ∧
    strconvAtoi "0" = .ok 0 ∧
    ((demoServer [] [] []).status zeroStatusExchange).1.writer.log
      = [WriterOp.headerDel "Grpc-Metadata-X-Http-Code", WriterOp.writeHeader 0] ∧
    ((demoServer [] [] []).status zeroStatusExchange).2 = Outcome.panicked ∧
    ((demoServer [] [] []).status zeroStatusExchange).2 ≠ Outcome.returned none :=
  ⟨by decide, rfl, by decide, by decide, by decide⟩

/-- C5: the operations one run of `Server.response` applies to the writer are
those of the header phase followed by those of the status phase; the former
hold no `WriteHeader` and the latter no header `Set`, so no header `Set`
follows a `WriteHeader`. -/
theorem response_sets_headers_before_status (s : Server) (ex : Exchange) :
    ∃ hs ss, (s.response ex).1.writer.log = ex.writer.log ++ (hs ++ ss) ∧
      (s.header ex).1.writer.log = ex.writer.log ++ hs ∧
      (∀ o ∈ hs, o.isWriteHeader = false) ∧
      (∀ o ∈ ss, o.isSet = false) ∧
      (∀ pre o post, hs ++ ss = pre ++ o :: post → o.isWriteHeader = true →
        ∀ o' ∈ post, o'.isSet = false) := by
  have key : ∃ hs ss, (s.response ex).1.writer.log = ex.writer.log ++ (hs ++ ss) ∧
      (s.header ex).1.writer.log = ex.writer.log ++ hs ∧
      (∀ o ∈ hs, o.isWriteHeader = false) ∧ (∀ o ∈ ss, o.isSet = false) := by
    cases hmd : ex.md with
    | none =>
      refine ⟨[], [], ?_, ?_, by simp, by simp⟩ <;>
        simp [Server.response, Server.header, Server.status, hmd]
    | some md =>
      obtain ⟨ops, hlog, hops⟩ := headerLoop_log s md (md, ex.writer)
      have hnw : ∀ o ∈ ops, o.isWriteHeader = false := by
        intro o ho
        obtain ⟨e, _, _, h | h⟩ := hops o ho <;> rw [h] <;> rfl
      have hhead := header_of_some s ex md hmd
      have hmd1 : (s.header ex).1.md = some (s.headerLoop md (md, ex.writer)).1 := by
        rw [hhead]
      have hlog1 : (s.header ex).1.writer.log = ex.writer.log ++ ops := by
        rw [hhead]; exact hlog
      rw [response_eq_status_header]
      cases hget : MD.Get (s.headerLoop md (md, ex.writer)).1 s.httpStatusHeader with
      | nil =>
        rw [status_of_nil s _ _ hmd1 hget]
        exact ⟨ops, [], by simpa using hlog1, hlog1, hnw, by simp⟩
      | cons v rest =>
        cases hparse : strconvAtoi v with
        | error ae =>
          rw [status_of_error s _ _ v rest ae hmd1 hget hparse]
          exact ⟨ops, [], by simpa using hlog1, hlog1, hnw, by simp⟩
        | ok code =>
          rw [status_of_ok s _ _ v rest code hmd1 hget hparse]
          refine ⟨ops, [WriterOp.headerDel s.grpcStatusHeader, WriterOp.writeHeader code],
            ?_, hlog1, hnw, ?_⟩
          · simp only [ResponseWriter.WriteHeader, ResponseWriter.headerDel]
            rw [hlog1]
            simp
          · intro o ho
            simp only [List.mem_cons, List.mem_singleton, List.not_mem_nil, or_false] at ho
            rcases ho with h | h <;> rw [h] <;> rfl
  obtain ⟨hs, ss, h1, h2, h3, h4⟩ := key
  refine ⟨hs, ss, h1, h2, h3, h4, ?_⟩
  intro pre o post heq ho o' ho'
  rcases List.append_eq_append_iff.mp heq with ⟨a', _, hss⟩ | ⟨c', hhs, hpost⟩
  · exact h4 o' (by rw [hss]; simp [ho'])
  · cases c' with
    | nil =>
      have : ss = o :: post := by simpa using hpost.symm
      exact h4 o' (by rw [this]; simp [ho'])
    | cons c cs =>
      have hc : c = o := by
        have := congrArg List.head? hpost
        simpa using this.symm
      have hmem : o ∈ hs := by rw [hhs, hc]; simp
      rw [h3 o hmem] at ho
      exact Bool.noConfusion ho

/-- C2, as the code has it: on a bag with lower-case keys whose removed keys
are rewritten to separate response headers, after `Server.header` every key
other than the HTTP-status key that `testRemove` matches has its values, joined
by one space, under the rewritten response header, is gone from the bag, and
has no `Grpc-Metadata-` header on the response; every other key keeps its entry
in the bag; and every operation applied to the writer stems from a matched
key. -/
theorem header_moves_removed_keys (s : Server) (ex : Exchange) (md : MD)
    (hmd : ex.md = some md) (hlow : md.lowerKeys) (hsep : s.separated md) :
    (s.header ex).2 = none ∧
    ∃ md', (s.header ex).1.md = some md' ∧
      (∀ k v nk, md.lookup k = some v → k ≠ s.httpStatusHeader →
        s.config.Gateway.Header.testRemove (stringsToLower k) = (nk, true) →
          (s.header ex).1.writer.hdr.Get nk = stringsJoin v space ∧
          (s.header ex).1.writer.hdr.lookup (canonicalMIMEHeaderKey nk)
            = some [stringsJoin v space] ∧
          md'.lookup k = none ∧
          (s.header ex).1.writer.hdr.lookup
            (canonicalMIMEHeaderKey (grpcMetadataHeader k)) = none) ∧
      (∀ k, (k = s.httpStatusHeader ∨
          (s.config.Gateway.Header.testRemove (stringsToLower k)).2 = false) →
        md'.lookup k = md.lookup k) ∧
      ∃ ops, (s.header ex).1.writer.log = ex.writer.log ++ ops ∧
        ∀ o ∈ ops, ∃ e ∈ md, e.1 ≠ s.httpStatusHeader ∧
          (s.config.Gateway.Header.testRemove (stringsToLower e.1)).2 = true ∧
          (o = WriterOp.headerSet (s.newKey e.1) (stringsJoin e.2 space) ∨
           o = WriterOp.headerDel (grpcMetadataHeader e.1)) := by
  rw [header_of_some s ex md hmd]
  refine ⟨rfl, (s.headerLoop md (md, ex.writer)).1, rfl, ?_, ?_, ?_⟩
  · intro k v nk hlk hne htest
    have hr : s.removal k = true :=
      (removal_eq_true_iff s k).mpr ⟨hne, by rw [htest]⟩
    have hnk : s.newKey k = nk := by simp [Server.newKey, htest]
    have hkmem : (k, v) ∈ md := mem_of_lookup md k v hlk
    have hself := (hsep (k, v) hkmem (k, v) hkmem hr hr).2
    have hmain := headerLoop_removed_key s k v hr hself md (md, ex.writer) hlow hlk
      (has_of_mem md (k, v) hkmem)
      (fun e he hek her =>
        ⟨(hsep e he (k, v) hkmem her hr).1 hek,
         fun h => (hsep (k, v) hkmem e he hr her).2 h.symm,
         (hsep e he (k, v) hkmem her hr).2⟩)
    rw [hnk] at hmain
    refine ⟨?_, hmain.1, ?_, hmain.2⟩
    · simp only [HttpHeader.Get, hmain.1]
    · cases hl : List.lookup k (s.headerLoop md (md, ex.writer)).1 with
      | none => rfl
      | some v' =>
        have hmem := mem_of_lookup _ k v' hl
        have := headerLoop_no_removal_left s md (md, ex.writer) hlow
          (fun e he _ => List.mem_map_of_mem Prod.fst he) (k, v') hmem
        rw [hr] at this
        exact Bool.noConfusion this
  · intro k hk
    have hr : s.removal k = false := by
      cases hb : s.removal k with
      | false => rfl
      | true =>
        obtain ⟨h1, h2⟩ := (removal_eq_true_iff s k).mp hb
        rcases hk with h | h
        · exact absurd h h1
        · rw [h] at h2; exact Bool.noConfusion h2
    exact headerLoop_lookup_md s k hr md (md, ex.writer) hlow
  · obtain ⟨ops, hlog, hops⟩ := headerLoop_log s md (md, ex.writer)
    refine ⟨ops, hlog, ?_⟩
    intro o ho
    obtain ⟨e, he, her, hcase⟩ := hops o ho
    obtain ⟨h1, h2⟩ := (removal_eq_true_iff s e.1).mp her
    exact ⟨e, he, h1, h2, hcase⟩

/-- In scenario S2 the request id ends under the response header
`x-request-id`. -/
theorem header_moves_removed_keys_witness :
    ((demoServer [prefixPattern "x-request-"] [] []).header transcodedExchange).2 = none ∧
    ∃ md', ((demoServer [prefixPattern "x-request-"] [] []).header transcodedExchange).1.md
        = some md' ∧
      ((demoServer [prefixPattern "x-request-"] [] []).header
        transcodedExchange).1.writer.hdr.Get "x-request-id" = "abc" ∧
      md'.lookup "x-request-id" = none :=
  have h := header_moves_removed_keys (demoServer [prefixPattern "x-request-"] [] [])
    transcodedExchange [("x-http-code", ["201"]), ("x-request-id", ["abc"])] rfl
    (by decide) (by decide)
  ⟨h.1, h.2.choose, h.2.choose_spec.1,
    (h.2.choose_spec.2.1 "x-request-id" ["abc"] "x-request-id" rfl (by decide) rfl).1,
    (h.2.choose_spec.2.1 "x-request-id" ["abc"] "x-request-id" rfl (by decide) rfl).2.2.1⟩

/-- C2 fails as stated. On the bag `X-Id: 1` with the rule `prefix x-`, the
lower-cased key is matched and the key is still in the bag after
`Server.header`. On the bag `grpc-metadata-x-id: 1, x-id: 2` with the rules
`prefix grpc-metadata-` and `prefix x-`, both keys are matched and the
response header of the first does not hold its value. -/
theorem header_moves_removed_keys_counterexample :
    ((demoServer [prefixPattern "x-"] [] []).config.Gateway.Header.testRemove
        (stringsToLower "X-Id") = ("x-id", true) ∧
      "X-Id" ≠ (demoServer [prefixPattern "x-"] [] []).httpStatusHeader ∧
      ((demoServer [prefixPattern "x-"] [] []).header upperKeyExchange).1.md
        = some [("X-Id", ["1"])]) ∧
    ((demoServer [prefixPattern "grpc-metadata-", prefixPattern "x-"] [] []
        ).config.Gateway.Header.testRemove (stringsToLower "grpc-metadata-x-id")
        = ("grpc-metadata-x-id", true) ∧
      (demoServer [prefixPattern "grpc-metadata-", prefixPattern "x-"] [] []
        ).config.Gateway.Header.testRemove (stringsToLower "x-id") = ("x-id", true) ∧
      stringsJoin ["1"] space = "1" ∧
      ((demoServer [prefixPattern "grpc-metadata-", prefixPattern "x-"] [] []).header
        clashExchange).1.writer.hdr.Get "grpc-metadata-x-id" = "") := by
  decide

/-- Lower-casing undoes upper-casing on a character that is not an upper-case
letter. -/
theorem toLower_toUpper_of_lower (c : Char) (h : c.toLower = c) : c.toUpper.toLower = c := by
  by_cases hl : 97 ≤ c.toNat ∧ c.toNat ≤ 122
  · have hc : Char.ofNat c.toNat = c := Char.ofNat_toNat c
    obtain ⟨h1, h2⟩ := hl
    rw [← hc]
    generalize c.toNat = n at h1 h2
    interval_cases n <;> rfl
  · have hu : c.toUpper = c := by
      unfold Char.toUpper
      simp only [ge_iff_le]
      rw [if_neg hl]
    rw [hu]
    exact h

/-- Lower-casing the canonical form of lower-case characters gives them
back. -/
theorem canonicalizeChars_toLower :
    ∀ (l : List Char) (upper : Bool), (∀ c ∈ l, c.toLower = c) →
      (canonicalizeChars upper l).map Char.toLower = l := by
  intro l
  induction l with
  | nil => intro _ _; rfl
  | cons c cs ih =>
    intro upper h
    have hc : c.toLower = c := h c (List.mem_cons_self _ _)
    have hcs : ∀ d ∈ cs, d.toLower = d := fun d hd => h d (List.mem_cons_of_mem _ hd)
    simp only [canonicalizeChars, List.map_cons, ih _ hcs]
    cases upper
    · simp [hc]
    · simp [toLower_toUpper_of_lower c hc]

/-- The characters of a lower-case key are fixed by lower-casing. -/
theorem chars_of_lower (k : String) (h : stringsToLower k = k) :
    ∀ c ∈ k.data, c.toLower = c := by
  have hd : k.data.map Char.toLower = k.data := by
    have := congrArg String.data h
    simpa [stringsToLower] using this
  generalize k.data = l at hd
  induction l with
  | nil => intro c hc; simp at hc
  | cons a as ih =>
    simp only [List.map_cons, List.cons.injEq] at hd
    intro c hc
    rcases List.mem_cons.mp hc with h1 | h1
    · rw [h1]; exact hd.1
    · exact ih hd.2 c h1

/-- A lower-case key is read back from the canonical form of its
`Grpc-Metadata-` header. -/
theorem key_of_canonical_grpcMetadataHeader (k : String) (h : stringsToLower k = k) :
    ((canonicalMIMEHeaderKey (grpcMetadataHeader k)).data.drop 14).map Char.toLower
      = k.data := by
  have hk := chars_of_lower k h
  have hdata : (grpcMetadataHeader k).data
      = 'G' :: 'r' :: 'p' :: 'c' :: '-' :: 'M' :: 'e' :: 't' :: 'a' :: 'd' :: 'a' :: 't'
          :: 'a' :: '-' :: k.data := by
    simp [grpcMetadataHeader, String.data_append]
  unfold canonicalMIMEHeaderKey
  split
  · rw [hdata]
    have hcan : canonicalizeChars true
        ('G' :: 'r' :: 'p' :: 'c' :: '-' :: 'M' :: 'e' :: 't' :: 'a' :: 'd' :: 'a' :: 't'
          :: 'a' :: '-' :: k.data)
        = 'G' :: 'r' :: 'p' :: 'c' :: '-' :: 'M' :: 'e' :: 't' :: 'a' :: 'd' :: 'a' :: 't'
          :: 'a' :: '-' :: canonicalizeChars true k.data := rfl
    rw [hcan]
    simp only [List.drop_succ_cons, List.drop_zero]
    exact canonicalizeChars_toLower _ _ hk
  · rw [hdata]
    simp only [List.drop_succ_cons, List.drop_zero]
    generalize k.data = l at hk
    induction l with
    | nil => rfl
    | cons a as ih =>
      simp only [List.map_cons, List.cons.injEq]
      exact ⟨hk a (List.mem_cons_self _ _), ih (fun c hc => hk c (List.mem_cons_of_mem _ hc))⟩

/-- Two lower-case keys with the same canonical `Grpc-Metadata-` header are the
same key. -/
theorem grpcMetadataHeader_injective (k1 k2 : String) (h1 : stringsToLower k1 = k1)
    (h2 : stringsToLower k2 = k2)
    (h : canonicalMIMEHeaderKey (grpcMetadataHeader k1)
      = canonicalMIMEHeaderKey (grpcMetadataHeader k2)) : k1 = k2 := by
  have e1 := key_of_canonical_grpcMetadataHeader k1 h1
  have e2 := key_of_canonical_grpcMetadataHeader k2 h2
  rw [h, e2] at e1
  exact String.ext e1.symm

/-- The loop leaves a response header present when no entry it acts on deletes
it. -/
theorem headerLoop_hdr_isSome (s : Server) (c : String) :
    ∀ (l : List (String × List String)) (st : MD × ResponseWriter),
      (st.2.hdr.lookup c).isSome = true →
      (∀ e ∈ l, st.1.has e.1 = true → s.removal e.1 = true →
        canonicalMIMEHeaderKey (grpcMetadataHeader e.1) ≠ c) →
      ((s.headerLoop l st).2.hdr.lookup c).isSome = true := by
  intro l
  induction l with
  | nil => intro st h0 _; exact h0
  | cons a as ih =>
    intro st h0 h
    obtain ⟨key, value⟩ := a
    have has' : ∀ e ∈ as, st.1.has e.1 = true → s.removal e.1 = true →
        canonicalMIMEHeaderKey (grpcMetadataHeader e.1) ≠ c :=
      fun e he => h e (List.mem_cons_of_mem _ he)
    simp only [Server.headerLoop]
    split
    · rename_i hhas
      by_cases hr : s.removal key = true
      · have h1 := h (key, value) (List.mem_cons_self _ _) hhas hr
        rw [headerBody_of_removal s key value st hr]
        apply ih
        · have h1' : ¬ c = canonicalMIMEHeaderKey (grpcMetadataHeader key) :=
            fun hc => h1 hc.symm
          simp only [ResponseWriter.headerSet, ResponseWriter.headerDel, lookup_Del,
            lookup_Set, if_neg h1']
          split
          · rfl
          · exact h0
        · intro e he hh
          exact has' e he (has_of_has_Delete _ _ _ hh).1
      · have hr' : s.removal key = false := by simpa using hr
        rw [headerBody_of_not_removal s key value st hr']
        exact ih st h0 has'
    · exact ih st h0 has'

/-- C4: on a bag whose first status value does not parse, `Server.response`
returns the parse error and the status is not written: no `WriteHeader` is
applied to the writer, the status phase leaves the exchange as the header
phase left it, the default status header that was on the response is still on
it, and the status values are still in the bag. The bag has lower-case keys,
as every bag of the `metadata` package has, and the two package constants are
as the spec describes them. -/
theorem response_keeps_status_on_parse_error (s : Server) (ex : Exchange) (md : MD)
    (v : String) (rest : List String) (ae : NumError)
    (hmd : ex.md = some md) (hlow : md.lowerKeys) (hconst : s.statusConstants)
    (hget : md.Get s.httpStatusHeader = v :: rest)
    (hparse : strconvAtoi v = .error ae) :
    (s.response ex).2 = Outcome.returned (some ae) ∧
    (s.response ex).1 = (s.header ex).1 ∧
    (∃ ops, (s.response ex).1.writer.log = ex.writer.log ++ ops ∧
      ∀ o ∈ ops, o.isWriteHeader = false) ∧
    (∃ md', (s.response ex).1.md = some md' ∧ md'.Get s.httpStatusHeader = v :: rest) ∧
    ((ex.writer.hdr.lookup (canonicalMIMEHeaderKey s.grpcStatusHeader)).isSome = true →
      ((s.response ex).1.writer.hdr.lookup
        (canonicalMIMEHeaderKey s.grpcStatusHeader)).isSome = true) ∧
    ((∀ e ∈ md, s.removal e.1 = true →
        canonicalMIMEHeaderKey (s.newKey e.1) ≠ canonicalMIMEHeaderKey s.grpcStatusHeader) →
      (s.response ex).1.writer.hdr.lookup (canonicalMIMEHeaderKey s.grpcStatusHeader)
        = ex.writer.hdr.lookup (canonicalMIMEHeaderKey s.grpcStatusHeader)) := by
  obtain ⟨hkey, hgsh⟩ := hconst
  have hhead := header_of_some s ex md hmd
  have hmd1 : (s.header ex).1.md = some (s.headerLoop md (md, ex.writer)).1 := by rw [hhead]
  have hr : s.removal s.httpStatusHeader = false := by simp [Server.removal]
  have hget1 : MD.Get (s.headerLoop md (md, ex.writer)).1 s.httpStatusHeader = v :: rest := by
    have := headerLoop_lookup_md s s.httpStatusHeader hr md (md, ex.writer) hlow
    simp only [MD.Get, hkey] at hget ⊢
    rw [this]
    exact hget
  have hresp : s.response ex = ((s.header ex).1, Outcome.returned (some ae)) := by
    rw [response_eq_status_header]
    exact status_of_error s _ _ v rest ae hmd1 hget1 hparse
  have hdel : ∀ e ∈ md, s.removal e.1 = true →
      canonicalMIMEHeaderKey (grpcMetadataHeader e.1)
        ≠ canonicalMIMEHeaderKey s.grpcStatusHeader := by
    intro e he her heq
    rw [hgsh] at heq
    have hek : e.1 = s.httpStatusHeader :=
      grpcMetadataHeader_injective _ _ (hlow e he) hkey heq
    rw [hek, hr] at her
    exact Bool.noConfusion her
  rw [hresp]
  refine ⟨rfl, rfl, ?_, ⟨_, hmd1, hget1⟩, ?_, ?_⟩
  · obtain ⟨ops, hlog, hops⟩ := headerLoop_log s md (md, ex.writer)
    refine ⟨ops, by rw [hhead]; exact hlog, ?_⟩
    intro o ho
    obtain ⟨e, _, _, h | h⟩ := hops o ho <;> rw [h] <;> rfl
  · intro hsome
    rw [hhead]
    exact headerLoop_hdr_isSome s _ md (md, ex.writer) hsome
      (fun e he _ her => hdel e he her)
  · intro hno
    rw [hhead]
    exact headerLoop_hdr_lookup s _ md (md, ex.writer)
      (fun e he _ her => ⟨hno e he her, hdel e he her⟩)

/-- In scenario S3 the response returns the syntax error of `strconv.Atoi`. -/
theorem response_keeps_status_on_parse_error_witness :
    ((demoServer [] [] []).response badStatusExchange).2
      = Outcome.returned (some NumError.errSyntax) :=
  (response_keeps_status_on_parse_error (demoServer [] [] []) badStatusExchange
    [("x-http-code", ["oops"])] "oops" [] NumError.errSyntax rfl (by decide) (by decide)
    rfl rfl).1

/-- After a response on a bag with lower-case keys, the bag holds no entry on
which the header phase acts. -/
theorem response_no_removal_left (s : Server) (ex : Exchange) (hlow : ex.lowerKeys) :
    ∀ md1, (s.response ex).1.md = some md1 → ∀ e ∈ md1, s.removal e.1 = false := by
  intro md1 hmd1
  cases hmd : ex.md with
  | none =>
    have h1 : s.response ex = (ex, Outcome.returned none) := by
      simp [Server.response, Server.header, Server.status, hmd]
    rw [h1] at hmd1
    simp only at hmd1
    rw [hmd] at hmd1
    exact Option.noConfusion hmd1
  | some md =>
    have hhead := header_of_some s ex md hmd
    have hmdh : (s.header ex).1.md = some (s.headerLoop md (md, ex.writer)).1 := by
      rw [hhead]
    have hnone : ∀ e ∈ (s.headerLoop md (md, ex.writer)).1, s.removal e.1 = false :=
      headerLoop_no_removal_left s md (md, ex.writer) (hlow md hmd)
        (fun e he _ => List.mem_map_of_mem Prod.fst he)
    rw [response_eq_status_header s ex] at hmd1
    cases hget : MD.Get (s.headerLoop md (md, ex.writer)).1 s.httpStatusHeader with
    | nil =>
      rw [status_of_nil s _ _ hmdh hget, hmdh] at hmd1
      rw [← Option.some.inj hmd1]
      exact hnone
    | cons v rest =>
      cases hparse : strconvAtoi v with
      | error ae =>
        rw [status_of_error s _ _ v rest ae hmdh hget hparse, hmdh] at hmd1
        rw [← Option.some.inj hmd1]
        exact hnone
      | ok code =>
        rw [status_of_ok s _ _ v rest code hmdh hget hparse] at hmd1
        rw [← Option.some.inj hmd1]
        exact fun e he => hnone e (mem_of_mem_Delete _ _ _ he).1

/-- C9: a second run of `Server.response` on the exchange the first run left
leaves the response headers of the first run: it changes neither the writer
nor the bag, and the `range` loop of its header phase, which finds the removed
keys gone, changes nothing in whatever order it visits the entries. The bag
has lower-case keys, as every bag of the `metadata` package has. -/
theorem response_twice_eq_once (s : Server) (ex : Exchange) (hlow : ex.lowerKeys) :
    (s.response (s.response ex).1).1 = (s.response ex).1 ∧
    (s.response (s.response ex).1).1.writer.hdr = (s.response ex).1.writer.hdr ∧
    (∀ md1, (s.response ex).1.md = some md1 →
      ∀ l : List (String × List String), (∀ e ∈ l, e ∈ md1) →
        s.headerLoop l (md1, (s.response ex).1.writer) = (md1, (s.response ex).1.writer)) := by
  have main : (s.response (s.response ex).1).1 = (s.response ex).1 := by
    cases hmd : ex.md with
    | none =>
      have h1 : s.response ex = (ex, Outcome.returned none) := by
        simp [Server.response, Server.header, Server.status, hmd]
      rw [h1, h1]
    | some md =>
      have hl := hlow md hmd
      have hhead := header_of_some s ex md hmd
      have hmd1 : (s.header ex).1.md = some (s.headerLoop md (md, ex.writer)).1 := by
        rw [hhead]
      have hnone : ∀ e ∈ (s.headerLoop md (md, ex.writer)).1, s.removal e.1 = false :=
        headerLoop_no_removal_left s md (md, ex.writer) hl
          (fun e he _ => List.mem_map_of_mem Prod.fst he)
      have hfix : s.header (s.header ex).1 = ((s.header ex).1, none) :=
        header_of_no_removal s _ _ hmd1 hnone
      rw [response_eq_status_header s ex]
      cases hget : MD.Get (s.headerLoop md (md, ex.writer)).1 s.httpStatusHeader with
      | nil =>
        have hst := status_of_nil s _ _ hmd1 hget
        rw [hst, response_eq_status_header, hfix, hst]
      | cons v rest =>
        cases hparse : strconvAtoi v with
        | error ae =>
          have hst := status_of_error s _ _ v rest ae hmd1 hget hparse
          rw [hst, response_eq_status_header, hfix, hst]
        | ok code =>
          have hst := status_of_ok s _ _ v rest code hmd1 hget hparse
          rw [hst, response_eq_status_header]
          have hnone2 : ∀ e ∈ MD.Delete (s.headerLoop md (md, ex.writer)).1 s.httpStatusHeader,
              s.removal e.1 = false :=
            fun e he => hnone e (mem_of_mem_Delete _ _ _ he).1
          rw [header_of_no_removal s _ _ rfl hnone2]
          rw [status_of_nil s _ _ rfl (by simp [MD.Get, MD.Delete, lookup_filter_self])]
  refine ⟨main, by rw [main], ?_⟩
  intro md1 hmd1 l hl
  apply headerLoop_of_no_removal
  intro e he
  exact response_no_removal_left s ex hlow md1 hmd1 e (hl e he)

/-- In scenario S2 a second run of the response interceptor leaves the
response headers of the first run. -/
theorem response_twice_eq_once_witness :
    ((demoServer [prefixPattern "x-request-"] [] []).response
      ((demoServer [prefixPattern "x-request-"] [] []).response
        transcodedExchange).1).1.writer.hdr
      = ((demoServer [prefixPattern "x-request-"] [] []).response
          transcodedExchange).1.writer.hdr :=
  (response_twice_eq_once (demoServer [prefixPattern "x-request-"] [] []) transcodedExchange
    (fun md h => by
      have : md = [("x-http-code", ["201"]), ("x-request-id", ["abc"])] :=
        (Option.some.inj h).symm
      subst this
      decide)).2.1

end PanguGrpc
